import Mathlib

/-!
Verification development for the GraphQL-TaskManager repository.

The repository is a single file holding a React client and an
Express + Sequelize + GraphQL server (src/client/src/App.tsx).  The server
part defines:

* the Sequelize models `Task` (id autoincrement, title NOT NULL,
  description TEXT nullable, due_date DATEONLY nullable, location nullable,
  status default "pending") and `Tag` (name unique NOT NULL), joined
  many-to-many through the `TaskTags` table;
* a GraphQL root query `tasks(q, tag)` whose resolver builds one
  `Task.findAll` call with a `where` clause (three `Op.like` patterns
  `%q%` over title / description / location, ORed) and an `include` of the
  `Tag` model (with `where: { name: tag }` when the tag filter is present),
  ordered by `due_date ASC`;
* REST command handlers: POST /tasks (create), PUT /tasks/:id (update),
  DELETE /tasks/:id (delete), with tags resolved by `Tag.findOrCreate` and
  associated via `addTag` / cleared via `setTags([])`.

The embedding below models the persistent store as explicit lists.  Since
`Tag.name` carries a unique constraint and is the only attribute the
server ever selects from the tag table (`attributes: ['name']`,
`through: { attributes: [] }`), tag rows are keyed by their name and the
join table `TaskTags` is modelled as a list of (task id, tag name) pairs.
SQLite specifics that the code relies on are modelled explicitly:
`LIKE` is an ASCII-case-insensitive pattern match in which `%` and `_`
are wildcards, and `ORDER BY due_date ASC` puts NULL first.
-/

namespace TaskManager

/-- A row of the `Tasks` table (Sequelize `Task.init`, the attributes the
server reads and writes; `createdAt`/`updatedAt` are never consulted). -/
structure Task where
  id : Nat
  title : String
  description : Option String
  due_date : Option String
  location : Option String
  status : String
deriving Repr, DecidableEq

/-- The persistent store: `Tasks` rows, `Tags` rows (keyed by their unique
name), `TaskTags` join rows as (task id, tag name), and the autoincrement
counter for task ids. -/
structure Store where
  tasks : List Task
  tagNames : List String
  assocs : List (Nat × String)
  nextTaskId : Nat
deriving Repr, DecidableEq

/-! ### SQLite LIKE semantics (used by the `Op.like` filters) -/

/-- ASCII lower-casing, the case folding SQLite's default `LIKE` applies. -/
def asciiLower (c : Char) : Char :=
  if 'A' ≤ c ∧ c ≤ 'Z' then Char.ofNat (c.toNat + 32) else c

/-- All suffixes of a list, longest first (including the empty suffix). -/
def suffixes : List Char → List (List Char)
  | [] => [[]]
  | c :: cs => (c :: cs) :: suffixes cs

/-- SQLite `LIKE` pattern matching: `%` matches any run of characters,
`_` matches exactly one, any other pattern character matches
ASCII-case-insensitively. -/
def likeMatch : List Char → List Char → Bool
  | [], cs => cs.isEmpty
  | p :: ps, cs =>
    if p = '%' then (suffixes cs).any (fun t => likeMatch ps t)
    else
      match cs with
      | [] => false
      | c :: cs => if p = '_' then likeMatch ps cs
                   else (asciiLower p == asciiLower c) && likeMatch ps cs

/-- `str LIKE pat` on strings. -/
def sqlLike (pat str : String) : Bool := likeMatch pat.data str.data

/-- The pattern the resolver interpolates: backtick-free rendering of
the template literal `%${q}%`. -/
def containsPat (q : String) : String := "%" ++ q ++ "%"

/-- `field LIKE '%q%'` on a nullable column: SQL `NULL LIKE p` is not true. -/
def optLike (q : String) : Option String → Bool
  | some s => sqlLike (containsPat q) s
  | none => false

/-! ### The query resolver (`RootQuery.tasks.resolve`) -/

/-- The `whereClause` of the resolver's `Task.findAll`: when `q` is
present, `title LIKE '%q%' OR description LIKE '%q%' OR location LIKE
'%q%'`; with no `q`, no constraint. -/
def whereQ : Option String → Task → Bool
  | none, _ => true
  | some q, t =>
    sqlLike (containsPat q) t.title || optLike q t.description || optLike q t.location

/-- The tag names joined to a task through `TaskTags` (the include of the
`Tag` model fetches only `name`). -/
def taskTagNames (s : Store) (taskId : Nat) : List String :=
  s.assocs.filterMap (fun p => if p.1 = taskId then some p.2 else none)

/-- The `includeClause` of the resolver.  The `where: { name: tag }` is
added under the guard `if (tag)`, and JavaScript truthiness makes both a
null/absent filter and the empty string falsy: in those cases the include
stays a plain LEFT OUTER JOIN (every task row kept, its full tag-name
list attached).  Only a non-empty filter adds the `where`, turning the
join into an INNER JOIN: the row is kept only if some joined tag matches,
and only the matching joined rows are attached to the instance. -/
def includeTags (s : Store) (taskId : Nat) : Option String → Option (List String)
  | none => some (taskTagNames s taskId)
  | some x =>
    if x = "" then some (taskTagNames s taskId)
    else
      let m := (taskTagNames s taskId).filter (fun n => n == x)
      if m.isEmpty then none else some m

/-- A model instance as returned by `Task.findAll` with the include:
the task row plus the eagerly loaded `Tags` property (`none` would mean
the association was not loaded at all). -/
structure TaskInstance where
  task : Task
  loadedTags : Option (List String)
deriving Repr, DecidableEq

/-- Whether one instance sorts no later than another under
`ORDER BY due_date ASC` (byte-wise comparison of the DATEONLY strings;
SQLite places NULL first under ASC). -/
def strLeB : List Char → List Char → Bool
  | [], _ => true
  | _ :: _, [] => false
  | a :: as, b :: bs =>
    if a.toNat < b.toNat then true
    else if b.toNat < a.toNat then false
    else strLeB as bs

/-- `ORDER BY due_date ASC` key order: NULL sorts before every date. -/
def dueLe : Option String → Option String → Bool
  | none, _ => true
  | some _, none => false
  | some a, some b => strLeB a.data b.data

/-- The order relation `ORDER BY due_date ASC` imposes on instances. -/
def dueOrder (i j : TaskInstance) : Prop :=
  dueLe i.task.due_date j.task.due_date = true

instance : DecidableRel dueOrder := fun i j =>
  inferInstanceAs (Decidable (dueLe i.task.due_date j.task.due_date = true))

/-- One row of the `findAll` result before ordering: the task is kept iff
it passes the `where` clause and (when a tag filter is present) the inner
join finds a matching tag; the joined tag names are attached as `Tags`. -/
def rowOf (s : Store) (q tagF : Option String) (t : Task) : Option TaskInstance :=
  if whereQ q t then (includeTags s t.id tagF).map (fun tgs => ⟨t, some tgs⟩)
  else none

/-- The resolver's single `Task.findAll({ where, include, order })` call.
The second component counts store round-trips: one for the whole call. -/
def findAllTasks (s : Store) (q tagF : Option String) : List TaskInstance × Nat :=
  (List.insertionSort dueOrder (s.tasks.filterMap (rowOf s q tagF)), 1)

/-- The GraphQL `tags` field resolver: `parent.Tags || parent.getTags()`.
An eagerly loaded `Tags` array (even an empty one) is truthy, so it is
returned directly at zero store cost; only an unloaded association falls
back to a per-task `getTags()` round-trip. -/
def tagsResolve (s : Store) (inst : TaskInstance) : List String × Nat :=
  match inst.loadedTags with
  | some l => (l, 0)
  | none => (taskTagNames s inst.task.id, 1)

/-- Executing the `tasks(q, tag)` GraphQL query end to end: run the
resolver's `findAll`, then the `tags` field resolver on every returned
instance.  Returns the list of (task, tag names) records the client sees,
plus the total number of store round-trips issued. -/
def executeTasksQuery (s : Store) (q tagF : Option String) :
    List (Task × List String) × Nat :=
  let r := findAllTasks s q tagF
  let outs := r.1.map (fun i => ((i.task, (tagsResolve s i).1), (tagsResolve s i).2))
  (outs.map (fun o => o.1), r.2 + (outs.map (fun o => o.2)).sum)

/-! ### Command handlers (REST) -/

/-- `Tag.findOrCreate({ where: { name } })`: return the existing tag row
with that name, else insert one. -/
def findOrCreateTag (s : Store) (n : String) : String × Store :=
  if n ∈ s.tagNames then (n, s)
  else (n, { s with tagNames := s.tagNames ++ [n] })

/-- `task.addTag(tag)`: insert the join row if it is not already there
(Sequelize's belongsToMany add skips associations that already exist). -/
def addTagAssoc (s : Store) (taskId : Nat) (n : String) : Store :=
  if (taskId, n) ∈ s.assocs then s
  else { s with assocs := s.assocs ++ [(taskId, n)] }

/-- The `for (const tagName of tags) { findOrCreate; addTag }` loop shared
by the create and update handlers. -/
def addTagsLoop (s : Store) (taskId : Nat) (names : List String) : Store :=
  names.foldl (fun st n =>
    let r := findOrCreateTag st n
    addTagAssoc r.2 taskId r.1) s

/-- The JSON body of POST /tasks.  `title` is `none` when the field is
absent or null; `tags` is `none` when the field is absent or not an array
(the handler guards with `tags && Array.isArray(tags)`). -/
structure CreateBody where
  title : Option String
  description : Option String
  due_date : Option String
  location : Option String
  tags : Option (List String)
deriving Repr, DecidableEq

/-- Outcome of POST /tasks: the created task, or the catch-all
`res.status(500).json({ error: 'Create failed' })`. -/
inductive CreateResult where
  | ok (t : Task)
  | createFailed
deriving Repr, DecidableEq

/-- POST /tasks: `Task.create({ title, description, due_date, location })`
(title NOT NULL, so a missing/null title throws a Sequelize validation
error, caught as a 500 with no row inserted; `status` takes its default
"pending"), then the find-or-create/addTag loop when `tags` is an array. -/
def createTask (s : Store) (b : CreateBody) : CreateResult × Store :=
  match b.title with
  | none => (.createFailed, s)
  | some title =>
    let task : Task :=
      ⟨s.nextTaskId, title, b.description, b.due_date, b.location, "pending"⟩
    let s1 : Store := { s with tasks := s.tasks ++ [task],
                               nextTaskId := s.nextTaskId + 1 }
    match b.tags with
    | some names => (.ok task, addTagsLoop s1 task.id names)
    | none => (.ok task, s1)

/-- The JSON body of PUT /tasks/:id.  The client always supplies the five
scalar fields (`title` as a JSON string, hence non-null); `tags` is `none`
when absent or not an array. -/
structure UpdateBody where
  title : String
  description : Option String
  due_date : Option String
  location : Option String
  status : String
  tags : Option (List String)
deriving Repr, DecidableEq

/-- Outcome of PUT /tasks/:id: the updated task, or the 404 branch
`res.status(404).json({ error: 'Not found' })`. -/
inductive UpdateResult where
  | ok (t : Task)
  | notFound
deriving Repr, DecidableEq

/-- `task.set({ title, description, status, due_date, location })`:
overwrite the scalar columns, keeping the id. -/
def applyScalars (b : UpdateBody) (t : Task) : Task :=
  { t with title := b.title, description := b.description,
           due_date := b.due_date, location := b.location, status := b.status }

/-- PUT /tasks/:id: `Task.findByPk` (404 before any mutation when absent),
then `set` + `save`, then — only when `tags` is an array — `setTags([])`
(delete every join row of this task) followed by the
find-or-create/addTag loop. -/
def updateTask (s : Store) (id : Nat) (b : UpdateBody) : UpdateResult × Store :=
  match s.tasks.find? (fun t => t.id == id) with
  | none => (.notFound, s)
  | some t0 =>
    let s1 : Store :=
      { s with tasks := s.tasks.map (fun t => if t.id == id then applyScalars b t else t) }
    match b.tags with
    | none => (.ok (applyScalars b t0), s1)
    | some names =>
      let s2 : Store := { s1 with assocs := s1.assocs.filter (fun p => p.1 != id) }
      (.ok (applyScalars b t0), addTagsLoop s2 id names)

/-- DELETE /tasks/:id: `Task.destroy({ where: { id } })` (the join rows go
with it through the foreign-key cascade of the through table), then
`res.json({ message: 'Deleted' })` unconditionally — the handler never
inspects the affected-row count. -/
def deleteTask (s : Store) (id : Nat) : String × Store :=
  ("Deleted",
   { s with tasks := s.tasks.filter (fun t => t.id != id),
            assocs := s.assocs.filter (fun p => p.1 != id) })

/-! ### Spec-side free-text matching

The spec words the free-text filter as "a case-insensitive substring match
against title OR description OR location".  The following definitions
follow those words (for comparison with the `Op.like` code path above):
a term is a substring of a field iff some suffix of the case-folded field
starts with the case-folded term. -/

/-- Spec-side: `q` matches at the start of `s`, character by character,
comparing ASCII-case-insensitively. -/
def startsCI : List Char → List Char → Bool
  | [], _ => true
  | _ :: _, [] => false
  | p :: ps, c :: cs => (asciiLower p == asciiLower c) && startsCI ps cs

/-- Spec-side, following the spec's words: `q` is a case-insensitive
substring of `s` iff some suffix of `s` starts with `q`. -/
def isSubCI (q s : List Char) : Bool := (suffixes s).any (startsCI q)

/-- Spec-side: the disjunction over the three searchable fields, with an
absent optional field matching nothing. -/
def ciFieldMatch (q : String) (t : Task) : Bool :=
  isSubCI q.data t.title.data ||
  (match t.description with | some d => isSubCI q.data d.data | none => false) ||
  (match t.location with | some l => isSubCI q.data l.data | none => false)

theorem startsCI_iff : ∀ q s : List Char,
    startsCI q s = true ↔ ∃ r, s.map asciiLower = q.map asciiLower ++ r
  | [], s => by simp [startsCI]
  | p :: ps, [] => by simp [startsCI]
  | p :: ps, c :: cs => by
    simp only [startsCI, List.map_cons, Bool.and_eq_true, beq_iff_eq,
      startsCI_iff ps cs, List.cons_append, List.cons.injEq]
    constructor
    · rintro ⟨h1, r, h2⟩
      exact ⟨r, h1.symm, h2⟩
    · rintro ⟨r, h1, h2⟩
      exact ⟨h1.symm, r, h2⟩

theorem mem_suffixes : ∀ {t s : List Char}, t ∈ suffixes s ↔ ∃ l, l ++ t = s := by
  intro t s
  induction s with
  | nil => simp [suffixes]
  | cons c cs ih =>
    simp only [suffixes, List.mem_cons, ih]
    constructor
    · rintro (rfl | ⟨l, rfl⟩)
      · exact ⟨[], rfl⟩
      · exact ⟨c :: l, rfl⟩
    · rintro ⟨l, hl⟩
      cases l with
      | nil => simp only [List.nil_append] at hl; exact .inl hl
      | cons a l =>
        simp only [List.cons_append, List.cons.injEq] at hl
        exact .inr ⟨l, hl.2⟩

/-- Sanity check that `isSubCI` really says "case-insensitive substring":
it holds iff the case-folded term occurs contiguously inside the
case-folded field. -/
theorem isSubCI_iff (q s : List Char) :
    isSubCI q s = true ↔
      ∃ l r, l ++ q.map asciiLower ++ r = s.map asciiLower := by
  simp only [isSubCI, List.any_eq_true]
  constructor
  · rintro ⟨t, ht, hstart⟩
    obtain ⟨l, rfl⟩ := mem_suffixes.mp ht
    obtain ⟨r, hr⟩ := (startsCI_iff q t).mp hstart
    exact ⟨l.map asciiLower, r, by simp [hr]⟩
  · rintro ⟨l, r, h⟩
    refine ⟨s.drop l.length, mem_suffixes.mpr ⟨s.take l.length, List.take_append_drop _ _⟩, ?_⟩
    refine (startsCI_iff q _).mpr ⟨r, ?_⟩
    rw [List.map_drop, ← h, List.append_assoc, List.drop_left]

/-! ### LIKE '%q%' coincides with substring search for wildcard-free terms -/

/-- A term with none of the LIKE metacharacters `%` and `_`. -/
def wildcardFree (q : String) : Prop := ∀ c ∈ q.data, c ≠ '%' ∧ c ≠ '_'

theorem suffixes_any_isEmpty : ∀ cs : List Char,
    (suffixes cs).any (fun t => t.isEmpty) = true
  | [] => rfl
  | _ :: cs => by
    simp only [suffixes, List.any_cons, suffixes_any_isEmpty cs, Bool.or_true]

theorem likeMatch_lit {q : List Char} (hq : ∀ c ∈ q, c ≠ '%' ∧ c ≠ '_') :
    ∀ cs, likeMatch (q ++ ['%']) cs = startsCI q cs := by
  induction q with
  | nil =>
    intro cs
    show likeMatch ([] ++ ['%']) cs = startsCI [] cs
    simp only [List.nil_append, likeMatch, startsCI, if_pos rfl]
    exact suffixes_any_isEmpty cs
  | cons a q ih =>
    intro cs
    have ha := hq a (by simp)
    have hq' : ∀ c ∈ q, c ≠ '%' ∧ c ≠ '_' := fun c hc => hq c (by simp [hc])
    cases cs with
    | nil => simp [likeMatch, startsCI, ha.1]
    | cons c cs =>
      simp only [likeMatch, startsCI, List.cons_append, if_neg ha.1, if_neg ha.2]
      exact congrArg (asciiLower a == asciiLower c && ·) (ih hq' cs)

theorem sqlLike_contains {q : String} (hq : wildcardFree q) (s : String) :
    sqlLike (containsPat q) s = isSubCI q.data s.data := by
  have hpc : "%".data = ['%'] := rfl
  have hdata : (containsPat q).data = '%' :: (q.data ++ ['%']) := by
    simp [containsPat, String.data_append, hpc]
  rw [sqlLike, hdata]
  show (if '%' = '%' then (suffixes s.data).any (fun t => likeMatch (q.data ++ ['%']) t)
        else likeMatch [] s.data) = isSubCI q.data s.data
  rw [if_pos rfl]
  unfold isSubCI
  exact congrArg (List.any _) (funext fun t => likeMatch_lit hq t)

/-- For wildcard-free terms the whole `whereClause` coincides with the
spec-side three-field substring disjunction. -/
theorem whereQ_eq_ciFieldMatch {q : String} (hq : wildcardFree q) (t : Task) :
    whereQ (some q) t = ciFieldMatch q t := by
  cases hd : t.description <;> cases hl : t.location <;>
    simp [whereQ, ciFieldMatch, optLike, hd, hl, sqlLike_contains hq]

/-! ### The ordering `ORDER BY due_date ASC` is total and transitive -/

theorem strLeB_total : ∀ x y : List Char, strLeB x y = true ∨ strLeB y x = true
  | [], _ => .inl rfl
  | _ :: _, [] => .inr rfl
  | a :: as, b :: bs => by
    simp only [strLeB]
    rcases Nat.lt_trichotomy a.toNat b.toNat with h | h | h
    · left; simp [h]
    · have h1 : ¬a.toNat < b.toNat := by omega
      have h2 : ¬b.toNat < a.toNat := by omega
      simpa [h1, h2] using strLeB_total as bs
    · right; simp [h]

theorem strLeB_trans : ∀ x y z : List Char,
    strLeB x y = true → strLeB y z = true → strLeB x z = true
  | [], _, _, _, _ => rfl
  | _ :: _, [], _, h, _ => by simp [strLeB] at h
  | _ :: _, _ :: _, [], _, h => by simp [strLeB] at h
  | a :: as, b :: bs, c :: cs, h1, h2 => by
    simp only [strLeB] at h1 h2 ⊢
    rcases Nat.lt_trichotomy b.toNat a.toNat with hba | hba | hba
    · rw [if_neg (show ¬a.toNat < b.toNat by omega), if_pos hba] at h1
      exact Bool.noConfusion h1
    · rcases Nat.lt_trichotomy c.toNat b.toNat with hcb | hcb | hcb
      · rw [if_neg (show ¬b.toNat < c.toNat by omega), if_pos hcb] at h2
        exact Bool.noConfusion h2
      · rw [if_neg (show ¬a.toNat < b.toNat by omega),
            if_neg (show ¬b.toNat < a.toNat by omega)] at h1
        rw [if_neg (show ¬b.toNat < c.toNat by omega),
            if_neg (show ¬c.toNat < b.toNat by omega)] at h2
        rw [if_neg (show ¬a.toNat < c.toNat by omega),
            if_neg (show ¬c.toNat < a.toNat by omega)]
        exact strLeB_trans as bs cs h1 h2
      · rw [if_pos (show a.toNat < c.toNat by omega)]
    · rcases Nat.lt_trichotomy c.toNat b.toNat with hcb | hcb | hcb
      · rw [if_neg (show ¬b.toNat < c.toNat by omega), if_pos hcb] at h2
        exact Bool.noConfusion h2
      · rw [if_pos (show a.toNat < c.toNat by omega)]
      · rw [if_pos (show a.toNat < c.toNat by omega)]

theorem dueLe_total : ∀ x y : Option String, dueLe x y = true ∨ dueLe y x = true
  | none, _ => .inl rfl
  | some _, none => .inr rfl
  | some a, some b => strLeB_total a.data b.data

theorem dueLe_trans : ∀ x y z : Option String,
    dueLe x y = true → dueLe y z = true → dueLe x z = true
  | none, _, _, _, _ => rfl
  | some _, none, _, h, _ => by simp [dueLe] at h
  | some _, some _, none, _, h => by simp [dueLe] at h
  | some a, some b, some c, h1, h2 => strLeB_trans a.data b.data c.data h1 h2

instance : IsTotal TaskInstance dueOrder := ⟨fun _ _ => dueLe_total _ _⟩

instance : IsTrans TaskInstance dueOrder := ⟨fun _ _ _ h1 h2 => dueLe_trans _ _ _ h1 h2⟩

/-! ### Shape of the query result -/

/-- A record is produced by the query pipeline exactly when its task row is
in the store, passes the `where` clause, and the include yields exactly the
attached tag-name list. -/
theorem mem_executeTasksQuery {s : Store} {q tagF : Option String}
    {p : Task × List String} :
    p ∈ (executeTasksQuery s q tagF).1 ↔
      p.1 ∈ s.tasks ∧ whereQ q p.1 = true ∧ includeTags s p.1.id tagF = some p.2 := by
  obtain ⟨t, tgs⟩ := p
  simp only [executeTasksQuery, findAllTasks, List.map_map, List.mem_map,
    Function.comp, List.mem_insertionSort, List.mem_filterMap, rowOf]
  constructor
  · rintro ⟨i, ⟨a, ha, hrow⟩, hp⟩
    by_cases hw : whereQ q a
    · rw [if_pos hw, Option.map_eq_some'] at hrow
      obtain ⟨tg, htg, rfl⟩ := hrow
      simp only [tagsResolve] at hp
      obtain ⟨rfl, rfl⟩ := Prod.mk.injEq .. ▸ hp
      exact ⟨ha, hw, htg⟩
    · rw [if_neg hw] at hrow
      exact absurd hrow (by simp)
  · rintro ⟨h1, h2, h3⟩
    refine ⟨⟨t, some tgs⟩, ⟨t, h1, ?_⟩, ?_⟩
    · rw [if_pos h2, h3]; rfl
    · simp [tagsResolve]

/-- Task-level membership in the query result. -/
theorem mem_resultTasks {s : Store} {q tagF : Option String} {t : Task} :
    t ∈ (executeTasksQuery s q tagF).1.map Prod.fst ↔
      t ∈ s.tasks ∧ whereQ q t = true ∧ (includeTags s t.id tagF).isSome = true := by
  rw [List.mem_map]
  constructor
  · rintro ⟨p, hp, rfl⟩
    obtain ⟨h1, h2, h3⟩ := mem_executeTasksQuery.mp hp
    exact ⟨h1, h2, by simp [h3]⟩
  · rintro ⟨h1, h2, h3⟩
    obtain ⟨tgs, htgs⟩ := Option.isSome_iff_exists.mp h3
    exact ⟨(t, tgs), mem_executeTasksQuery.mpr ⟨h1, h2, htgs⟩, rfl⟩

/-! ### Bookkeeping lemmas for the command handlers -/

theorem findOrCreateTag_fst (s : Store) (n : String) :
    (findOrCreateTag s n).1 = n := by
  unfold findOrCreateTag; split <;> rfl

theorem findOrCreateTag_assocs (s : Store) (n : String) :
    (findOrCreateTag s n).2.assocs = s.assocs := by
  unfold findOrCreateTag; split <;> rfl

theorem findOrCreateTag_tasks (s : Store) (n : String) :
    (findOrCreateTag s n).2.tasks = s.tasks := by
  unfold findOrCreateTag; split <;> rfl

theorem addTagAssoc_tasks (s : Store) (taskId : Nat) (n : String) :
    (addTagAssoc s taskId n).tasks = s.tasks := by
  unfold addTagAssoc; split <;> rfl

theorem addTagAssoc_mem {s : Store} {taskId : Nat} {m : String} (i : Nat) (n : String) :
    ((i, n) ∈ (addTagAssoc s taskId m).assocs) ↔
      (i, n) ∈ s.assocs ∨ (i = taskId ∧ n = m) := by
  unfold addTagAssoc
  split
  · rename_i h
    constructor
    · exact .inl
    · rintro (h' | ⟨rfl, rfl⟩)
      · exact h'
      · exact h
  · simp [List.mem_append, Prod.ext_iff]

theorem addTagsLoop_tasks (taskId : Nat) :
    ∀ (names : List String) (s : Store), (addTagsLoop s taskId names).tasks = s.tasks
  | [], _ => rfl
  | n :: names, s => by
    show (addTagsLoop
        (addTagAssoc (findOrCreateTag s n).2 taskId (findOrCreateTag s n).1)
        taskId names).tasks = s.tasks
    rw [addTagsLoop_tasks taskId names, addTagAssoc_tasks, findOrCreateTag_tasks]

/-- What ends up in the join table after the find-or-create/addTag loop:
the old rows, plus one row per supplied name for the given task. -/
theorem addTagsLoop_mem (taskId : Nat) (i : Nat) (n : String) :
    ∀ (names : List String) (s : Store),
      ((i, n) ∈ (addTagsLoop s taskId names).assocs) ↔
        (i, n) ∈ s.assocs ∨ (i = taskId ∧ n ∈ names)
  | [], s => by simp [addTagsLoop]
  | m :: names, s => by
    show ((i, n) ∈ (addTagsLoop
        (addTagAssoc (findOrCreateTag s m).2 taskId (findOrCreateTag s m).1)
        taskId names).assocs) ↔ _
    rw [addTagsLoop_mem taskId i n names, findOrCreateTag_fst, addTagAssoc_mem,
      findOrCreateTag_assocs]
    simp only [List.mem_cons]
    tauto

theorem taskTagNames_mem {s : Store} {i : Nat} {n : String} :
    n ∈ taskTagNames s i ↔ (i, n) ∈ s.assocs := by
  unfold taskTagNames
  rw [List.mem_filterMap]
  constructor
  · rintro ⟨⟨a, b⟩, hp, hif⟩
    by_cases h : a = i
    · subst h
      simp only [if_pos rfl] at hif
      obtain rfl : b = n := by simpa using hif
      exact hp
    · simp [h] at hif
  · intro h
    exact ⟨(i, n), h, by simp⟩

theorem applyScalars_id (b : UpdateBody) (t : Task) :
    (applyScalars b t).id = t.id := rfl

theorem find?_task_isSome {l : List Task} {id : Nat} :
    (l.find? (fun t => t.id == id)).isSome = true ↔ id ∈ l.map Task.id := by
  rw [List.find?_isSome, List.mem_map]
  constructor
  · rintro ⟨t, ht, hp⟩
    exact ⟨t, ht, by simpa using hp⟩
  · rintro ⟨t, ht, hp⟩
    exact ⟨t, ht, by simpa using hp⟩

theorem map_id_map_scalars (b : UpdateBody) (id : Nat) (l : List Task) :
    (l.map (fun t => if t.id == id then applyScalars b t else t)).map Task.id =
      l.map Task.id := by
  rw [List.map_map]
  apply List.map_congr_left
  intro t _
  by_cases h : t.id == id <;> simp [Function.comp, h, applyScalars]

/-- Update never changes which task ids are present. -/
theorem updateTask_ids (s : Store) (id : Nat) (b : UpdateBody) :
    ((updateTask s id b).2).tasks.map Task.id = s.tasks.map Task.id := by
  unfold updateTask
  cases hf : s.tasks.find? (fun t => t.id == id) with
  | none => rfl
  | some t0 =>
    cases hb : b.tags with
    | none => exact map_id_map_scalars b id s.tasks
    | some names =>
      show ((addTagsLoop _ id names).tasks).map Task.id = _
      rw [addTagsLoop_tasks]
      exact map_id_map_scalars b id s.tasks

/-- With a non-empty tag filter (the truthy case of `if (tag)`), the
include is inner-joined: it yields a row iff the task carries a tag with
exactly the filtered name. -/
theorem includeTags_isSome {s : Store} {i : Nat} {x : String} (hx : x ≠ "") :
    (includeTags s i (some x)).isSome = true ↔ x ∈ taskTagNames s i := by
  simp only [includeTags, if_neg hx]
  split
  · rename_i he
    simp only [Option.isSome_none, Bool.false_eq_true, false_iff]
    rw [List.isEmpty_iff] at he
    intro hx
    have hmem : x ∈ (taskTagNames s i).filter (fun n => n == x) :=
      List.mem_filter.mpr ⟨hx, by simp⟩
    rw [he] at hmem
    exact absurd hmem (List.not_mem_nil x)
  · rename_i he
    simp only [Option.isSome_some, true_iff]
    have hne : (taskTagNames s i).filter (fun n => n == x) ≠ [] := by
      intro hnil
      exact he (by rw [hnil]; rfl)
    obtain ⟨y, hy⟩ := List.exists_mem_of_ne_nil _ hne
    obtain ⟨hy1, hy2⟩ := List.mem_filter.mp hy
    obtain rfl : y = x := by simpa using hy2
    exact hy1

/-! ## The claims -/

/-- The spec's concrete scenario: one task "Buy milk" carrying the two
tags "shopping" and "errand". -/
def c1Task : Task := ⟨1, "Buy milk", none, none, none, "pending"⟩

def c1Store : Store :=
  { tasks := [c1Task],
    tagNames := ["shopping", "errand"],
    assocs := [(1, "shopping"), (1, "errand")],
    nextTaskId := 2 }

/-- C1 (counterexample): the claim says a tag-filtered query returns each
task with its FULL tag-name list — in the concrete scenario, both
"shopping" and "errand".  On the code, the include's `where` turns the
join into a filtering inner join and Sequelize attaches only the matching
joined rows, so the query returns the task with tags `["shopping"]` even
though its full association list is `["shopping", "errand"]`. -/
theorem c1_counterexample :
    ((executeTasksQuery c1Store none (some "shopping")).1.map (fun p => p.2)
        = [["shopping"]]) ∧
    taskTagNames c1Store 1 = ["shopping", "errand"] ∧
    ((executeTasksQuery c1Store none (some "shopping")).1.map (fun p => p.2)
        ≠ [["shopping", "errand"]]) := by
  decide

/-- C1 (amended): under a non-empty tag filter X (the truthy case of the
handler's `if (tag)` guard), each returned task is accompanied not by its
full tag-name list but exactly by its associated tag names equal to X
(the matching rows of the filtered join); a null or empty-string filter
is falsy, leaves the include unfiltered, and attaches the full list. -/
theorem c1_amended (s : Store) (q : Option String) (x : String) (hx : x ≠ "") :
    ∀ p ∈ (executeTasksQuery s q (some x)).1,
      p.2 = (taskTagNames s p.1.id).filter (fun n => n == x) := by
  intro p hp
  obtain ⟨-, -, h3⟩ := mem_executeTasksQuery.mp hp
  simp only [includeTags, if_neg hx] at h3
  split at h3
  · exact absurd h3 (by simp)
  · exact (Option.some.inj h3).symm

theorem c1_amended_witness :
    ((c1Task, ["shopping"]) : Task × List String).2 =
      (taskTagNames c1Store ((c1Task, ["shopping"]) : Task × List String).1.id).filter
        (fun n => n == "shopping") :=
  c1_amended c1Store none "shopping" (by decide) (c1Task, ["shopping"]) (by decide)

def c2Empty : Store := { tasks := [], tagNames := [], assocs := [], nextTaskId := 1 }

/-- C2 (counterexample): the claim says create fails when the title is the
empty string and that no row is inserted, so titles are never empty.  On
the code, `allowNull: false` only rejects null/missing: creating with
title "" succeeds and inserts a row whose title is empty. -/
theorem c2_counterexample :
    (createTask c2Empty ⟨some "", none, none, none, none⟩).1
        ≠ CreateResult.createFailed ∧
    ((createTask c2Empty ⟨some "", none, none, none, none⟩).2.tasks.map Task.title
        = [""]) := by
  decide

/-- C2 (amended): create fails (500, store unchanged) iff the title is
missing/null; any supplied string title — including the empty string — is
accepted and a row with exactly that title and default status "pending"
is inserted. -/
theorem c2_amended (s : Store) (b : CreateBody) :
    ((createTask s b).1 = CreateResult.createFailed ↔ b.title = none) ∧
    (b.title = none → (createTask s b).2 = s) ∧
    (∀ ttl, b.title = some ttl →
      (createTask s b).2.tasks =
        s.tasks ++ [⟨s.nextTaskId, ttl, b.description, b.due_date, b.location,
          "pending"⟩]) := by
  cases hb : b.title with
  | none => simp [createTask, hb]
  | some ttl =>
    cases ht : b.tags with
    | none => simp [createTask, hb, ht]
    | some names => simp [createTask, hb, ht, addTagsLoop_tasks]

theorem c2_amended_witness :
    ((createTask c2Empty ⟨none, none, none, none, none⟩).1
        = CreateResult.createFailed) ∧
    (createTask c2Empty ⟨none, none, none, none, none⟩).2 = c2Empty :=
  ⟨(c2_amended c2Empty ⟨none, none, none, none, none⟩).1.mpr rfl,
   (c2_amended c2Empty ⟨none, none, none, none, none⟩).2.1 rfl⟩

def c3Task : Task := ⟨1, "abc", none, none, none, "pending"⟩

def c3Store : Store :=
  { tasks := [c3Task], tagNames := [], assocs := [], nextTaskId := 2 }

/-- C3 (counterexample): the claim says the free-text query returns
exactly the tasks having the term as a case-insensitive substring of
title, description or location.  The code interpolates the term into a
LIKE pattern, so `%` and `_` act as wildcards: the term "%" is not a
substring of any field of the stored task (title "abc", no description,
no location), yet the query returns it. -/
theorem c3_counterexample :
    ((executeTasksQuery c3Store (some "%") none).1.map (fun p => p.1.id) = [1]) ∧
    isSubCI "%".data "abc".data = false ∧
    c3Task.description = none ∧ c3Task.location = none := by
  decide

/-- C3 (amended): for terms containing no LIKE metacharacter (`%` or
`_`), the free-text query returns exactly the tasks for which the term is
an ASCII-case-insensitive substring of title, description, or location;
terms containing `%` or `_` are instead interpreted as LIKE wildcards. -/
theorem c3_amended (s : Store) (q : String) (hq : wildcardFree q) (t : Task) :
    t ∈ (executeTasksQuery s (some q) none).1.map Prod.fst ↔
      t ∈ s.tasks ∧ ciFieldMatch q t = true := by
  rw [mem_resultTasks, whereQ_eq_ciFieldMatch hq]
  simp [includeTags]

theorem c3_amended_witness :
    c3Task ∈ (executeTasksQuery c3Store (some "AB") none).1.map Prod.fst :=
  (c3_amended c3Store "AB" (by unfold wildcardFree; decide) c3Task).mpr (by decide)

def c4Task : Task := ⟨1, "t", none, none, none, "pending"⟩

def c4Store : Store :=
  { tasks := [c4Task], tagNames := ["a"], assocs := [(1, "a")], nextTaskId := 2 }

/-- C4 (counterexample): the claim quantifies over every tag filter X,
but the handler guards the filter with `if (tag)` and the empty string is
falsy in JavaScript: at X = "" no filter is applied, so a task tagged
only "a" is returned although it has no associated tag named "". -/
theorem c4_counterexample :
    ((executeTasksQuery c4Store none (some "")).1.map Prod.fst = [c4Task]) ∧
    "" ∉ taskTagNames c4Store 1 := by
  decide

/-- C4 (amended): for every non-empty tag filter X, the query returns
exactly the tasks having at least one associated tag whose name equals X
exactly (the include's `where: { name: tag }` is an equality, not a
LIKE); the empty-string filter is falsy under `if (tag)` and behaves like
no filter at all, returning every task. -/
theorem c4_tag_filter_exact (s : Store) (x : String) (hx : x ≠ "") (t : Task) :
    t ∈ (executeTasksQuery s none (some x)).1.map Prod.fst ↔
      t ∈ s.tasks ∧ x ∈ taskTagNames s t.id := by
  rw [mem_resultTasks, includeTags_isSome hx]
  simp [whereQ]

theorem c4_witness :
    c4Task ∈ (executeTasksQuery c4Store none (some "a")).1.map Prod.fst :=
  (c4_tag_filter_exact c4Store "a" (by decide) c4Task).mpr (by decide)

/-- C5 (confirmed): update with a tag list performs full replacement —
after update(T, tags=[a,b]) then update(T, tags=[b,c]) the association
set of T is exactly {b, c}. -/
theorem c5_update_replaces_tags (s : Store) (id : Nat) (a b c : String)
    (b1 b2 : UpdateBody) (_h1 : b1.tags = some [a, b]) (h2 : b2.tags = some [b, c])
    (hid : id ∈ s.tasks.map Task.id) (n : String) :
    n ∈ taskTagNames ((updateTask ((updateTask s id b1).2) id b2).2) id ↔
      (n = b ∨ n = c) := by
  set s1 := (updateTask s id b1).2 with hs1
  have hid1 : id ∈ s1.tasks.map Task.id := by rw [hs1, updateTask_ids]; exact hid
  obtain ⟨t0, ht0⟩ := Option.isSome_iff_exists.mp (find?_task_isSome.mpr hid1)
  rw [taskTagNames_mem]
  simp only [updateTask, ht0, h2]
  rw [addTagsLoop_mem]
  simp [List.mem_filter]

def c5Store : Store :=
  { tasks := [⟨1, "t", none, none, none, "pending"⟩],
    tagNames := [], assocs := [], nextTaskId := 2 }

def c5Body1 : UpdateBody := ⟨"t", none, none, none, "pending", some ["a", "b"]⟩

def c5Body2 : UpdateBody := ⟨"t", none, none, none, "pending", some ["b", "c"]⟩

theorem c5_witness :
    "b" ∈ taskTagNames ((updateTask ((updateTask c5Store 1 c5Body1).2) 1 c5Body2).2) 1 :=
  (c5_update_replaces_tags c5Store 1 "a" "b" "c" c5Body1 c5Body2 rfl rfl
    (by decide) "b").mpr (.inl rfl)

/-- C6 (confirmed): an update addressing a non-existent id fails with the
404 branch and leaves the whole store untouched — `findByPk` runs before
any mutation. -/
theorem c6_update_not_found (s : Store) (id : Nat) (b : UpdateBody)
    (h : id ∉ s.tasks.map Task.id) :
    (updateTask s id b).1 = UpdateResult.notFound ∧ (updateTask s id b).2 = s := by
  have hf : s.tasks.find? (fun t => t.id == id) = none := by
    rw [List.find?_eq_none]
    intro t ht hp
    exact h (List.mem_map.mpr ⟨t, ht, by simpa using hp⟩)
  simp [updateTask, hf]

def c6Store : Store :=
  { tasks := [⟨1, "t", none, none, none, "pending"⟩],
    tagNames := ["x"], assocs := [(1, "x")], nextTaskId := 2 }

def c6Body : UpdateBody := ⟨"u", none, none, none, "completed", some ["y"]⟩

theorem c6_witness :
    (updateTask c6Store 5 c6Body).1 = UpdateResult.notFound ∧
    (updateTask c6Store 5 c6Body).2 = c6Store :=
  c6_update_not_found c6Store 5 c6Body (by decide)

/-- C7 (confirmed): delete reports success for every id, existing or not
(the handler never inspects the affected-row count), and no later query —
whatever its filters — returns a task with the deleted id. -/
theorem c7_delete_reports_success (s : Store) (id : Nat) (q tagF : Option String) :
    (deleteTask s id).1 = "Deleted" ∧
    ((executeTasksQuery (deleteTask s id).2 q tagF).1.all
        (fun p => p.1.id != id)) = true := by
  refine ⟨rfl, ?_⟩
  rw [List.all_eq_true]
  intro p hp
  obtain ⟨h1, -, -⟩ := mem_executeTasksQuery.mp hp
  have hf : p.1 ∈ s.tasks.filter (fun t => t.id != id) := h1
  simpa using (List.mem_filter.mp hf).2

/-- C8 (confirmed): executing the whole query — resolver plus per-task
`tags` field resolution — issues exactly one store round-trip, whatever
the store and filters: the eager include loads every tag list up front,
so no per-task `getTags` fallback ever fires. -/
theorem c8_single_round_trip (s : Store) (q tagF : Option String) :
    (executeTasksQuery s q tagF).2 = 1 := by
  simp only [executeTasksQuery, findAllTasks, List.map_map]
  have hz : ∀ x ∈ (List.insertionSort dueOrder
      (s.tasks.filterMap (rowOf s q tagF))).map
        (fun i => (tagsResolve s i).2), x = 0 := by
    intro x hx
    obtain ⟨i, hi, rfl⟩ := List.mem_map.mp hx
    rw [List.mem_insertionSort] at hi
    obtain ⟨a, -, hrow⟩ := List.mem_filterMap.mp hi
    unfold rowOf at hrow
    by_cases hw : whereQ q a
    · rw [if_pos hw, Option.map_eq_some'] at hrow
      obtain ⟨tg, -, rfl⟩ := hrow
      rfl
    · rw [if_neg hw] at hrow
      exact absurd hrow (by simp)
  show 1 + (List.map (fun i => (tagsResolve s i).2)
      (List.insertionSort dueOrder (s.tasks.filterMap (rowOf s q tagF)))).sum = 1
  rw [List.sum_eq_zero hz]
  rfl

/-- The due-date order on the records the client receives. -/
def dueOrderOut (p1 p2 : Task × List String) : Prop :=
  dueLe p1.1.due_date p2.1.due_date = true

/-- C9 (confirmed): every query result is sorted by due date ascending
under the fixed null-ordering of the storage engine (NULL due dates sort
first, as SQLite places NULL first under ASC). -/
theorem c9_sorted_by_due_date (s : Store) (q tagF : Option String) :
    List.Sorted dueOrderOut (executeTasksQuery s q tagF).1 := by
  have h := List.sorted_insertionSort dueOrder (s.tasks.filterMap (rowOf s q tagF))
  simp only [executeTasksQuery, findAllTasks, List.map_map]
  exact List.Pairwise.map _ (fun a b hab => hab) h

/-- C10 (confirmed): an update whose body carries no tags array overwrites
the scalar columns of the addressed task but leaves the join table and the
tag table completely unchanged. -/
theorem c10_update_without_tags (s : Store) (id : Nat) (b : UpdateBody)
    (hid : id ∈ s.tasks.map Task.id) (ht : b.tags = none) :
    (updateTask s id b).2.assocs = s.assocs ∧
    (updateTask s id b).2.tagNames = s.tagNames ∧
    (updateTask s id b).2.tasks =
      s.tasks.map (fun t => if t.id == id then applyScalars b t else t) := by
  obtain ⟨t0, ht0⟩ := Option.isSome_iff_exists.mp (find?_task_isSome.mpr hid)
  simp [updateTask, ht0, ht]

def c10Store : Store :=
  { tasks := [⟨1, "t", some "d", none, none, "pending"⟩],
    tagNames := ["x"], assocs := [(1, "x")], nextTaskId := 2 }

def c10Body : UpdateBody := ⟨"t2", none, none, none, "completed", none⟩

theorem c10_witness :
    (updateTask c10Store 1 c10Body).2.assocs = c10Store.assocs ∧
    (updateTask c10Store 1 c10Body).2.tagNames = c10Store.tagNames ∧
    (updateTask c10Store 1 c10Body).2.tasks =
      c10Store.tasks.map (fun t => if t.id == 1 then applyScalars c10Body t else t) :=
  c10_update_without_tags c10Store 1 c10Body (by decide) rfl

end TaskManager
